import Mathlib

/-!
Shallow embedding of the pyRSS store (`src/pyrss.py`) in Lean 4.

The embedding translates the pure logic of the SQLite-backed RSS store:
the normalization layer (`entry_guid`, `normalize_text`, `pick_summary`,
`pick_content`, `parse_entry_datetime`), the feed/entry/filter data shapes,
the ingestion engine (`add_feed`, `fetch_all`, `_fetch_one_feed`), the
retrieval engine (`get_updates_between`, `get_updates_last_days`,
`get_last_entries_for_feed`), the filter evaluator
(`_entry_matches_filter`, `_entry_matches_any_filter`,
`get_filtered_entries_for_feed`) and search (`search`, `_search_like`).

SQLite tables are modelled as Lean lists of rows; `INSERT OR IGNORE`
against a UNIQUE constraint becomes an explicit presence check; `ORDER BY
... DESC` becomes an insertion sort on the corresponding key, compared
with `strLe`, the byte-wise BINARY collation SQLite applies to TEXT; the
wall clock (`utc_now_iso`, `utc_today`) is threaded in as an explicit
parameter, as is the AUTOINCREMENT row id.
-/

namespace PyRSS

/-! ### SHA-256 (`hashlib.sha256(...).hexdigest()` from `entry_guid`)

Words are `Nat` reduced mod 2^32 (`w32`); the message is a list of byte
values (`Nat < 256`) obtained from the UTF-8 encoding of the input. -/

def w32 (n : Nat) : Nat := n % 4294967296

def rotr32 (n x : Nat) : Nat := w32 (x / 2 ^ n + x % 2 ^ n * 2 ^ (32 - n))

def shaCh (x y z : Nat) : Nat := (x &&& y) ^^^ ((x ^^^ 4294967295) &&& z)

def shaMaj (x y z : Nat) : Nat := (x &&& y) ^^^ (x &&& z) ^^^ (y &&& z)

def bigSigma0 (x : Nat) : Nat := rotr32 2 x ^^^ rotr32 13 x ^^^ rotr32 22 x

def bigSigma1 (x : Nat) : Nat := rotr32 6 x ^^^ rotr32 11 x ^^^ rotr32 25 x

def smallSigma0 (x : Nat) : Nat := rotr32 7 x ^^^ rotr32 18 x ^^^ x / 8

def smallSigma1 (x : Nat) : Nat := rotr32 17 x ^^^ rotr32 19 x ^^^ x / 1024

def shaK : List Nat :=
  [1116352408, 1899447441, 3049323471, 3921009573, 961987163,
   1508970993, 2453635748, 2870763221, 3624381080, 310598401,
   607225278, 1426881987, 1925078388, 2162078206, 2614888103,
   3248222580, 3835390401, 4022224774, 264347078, 604807628,
   770255983, 1249150122, 1555081692, 1996064986, 2554220882,
   2821834349, 2952996808, 3210313671, 3336571891, 3584528711,
   113926993, 338241895, 666307205, 773529912, 1294757372,
   1396182291, 1695183700, 1986661051, 2177026350, 2456956037,
   2730485921, 2820302411, 3259730800, 3345764771, 3516065817,
   3600352804, 4094571909, 275423344, 430227734, 506948616,
   659060556, 883997877, 958139571, 1322822218, 1537002063,
   1747873779, 1955562222, 2024104815, 2227730452, 2361852424,
   2428436474, 2756734187, 3204031479, 3329325298]

structure SHAState where
  a : Nat
  b : Nat
  c : Nat
  d : Nat
  e : Nat
  f : Nat
  g : Nat
  h : Nat
deriving Repr, DecidableEq

def shaInit : SHAState :=
  ⟨1779033703, 3144134277, 1013904242, 2773480762,
   1359893119, 2600822924, 528734635, 1541459225⟩

def shaRound (st : SHAState) (kw : Nat × Nat) : SHAState :=
  let t1 := w32 (st.h + bigSigma1 st.e + shaCh st.e st.f st.g + kw.1 + kw.2)
  let t2 := w32 (bigSigma0 st.a + shaMaj st.a st.b st.c)
  ⟨w32 (t1 + t2), st.a, st.b, st.c, w32 (st.d + t1), st.e, st.f, st.g⟩

def bytesToWords : List Nat → List Nat
  | b0 :: b1 :: b2 :: b3 :: rest => (((b0 * 256 + b1) * 256 + b2) * 256 + b3) :: bytesToWords rest
  | _ => []

def extendSchedule : Nat → Array Nat → Array Nat
  | 0, ws => ws
  | n + 1, ws =>
    let i := ws.size
    let w := w32 (ws.getD (i - 16) 0 + smallSigma0 (ws.getD (i - 15) 0) +
                  ws.getD (i - 7) 0 + smallSigma1 (ws.getD (i - 2) 0))
    extendSchedule n (ws.push w)

def processChunk (st : SHAState) (chunk : List Nat) : SHAState :=
  let ws := extendSchedule 48 (Array.mk (bytesToWords chunk))
  let t := (shaK.zip ws.toList).foldl shaRound st
  ⟨w32 (st.a + t.a), w32 (st.b + t.b), w32 (st.c + t.c), w32 (st.d + t.d),
   w32 (st.e + t.e), w32 (st.f + t.f), w32 (st.g + t.g), w32 (st.h + t.h)⟩

def beBytes (count n : Nat) : List Nat :=
  (List.range count).map (fun i => n / 256 ^ (count - 1 - i) % 256)

def chunks64 (l : List Nat) : List (List Nat) :=
  if h : l = [] then [] else l.take 64 :: chunks64 (l.drop 64)
termination_by l.length
decreasing_by
  simp only [List.length_drop]
  have : 0 < l.length := List.length_pos.mpr h
  omega

def shaPad (msg : List Nat) : List Nat :=
  let k := (55 + 64 - msg.length % 64) % 64
  msg ++ 128 :: List.replicate k 0 ++ beBytes 8 (8 * msg.length)

def sha256Digest (msg : List Nat) : SHAState :=
  (chunks64 (shaPad msg)).foldl processChunk shaInit

def hexChar (n : Nat) : Char :=
  if n < 10 then Char.ofNat (48 + n) else Char.ofNat (87 + n)

def toHex8 (n : Nat) : String :=
  String.mk ((List.range 8).map (fun i => hexChar (n / 16 ^ (7 - i) % 16)))

def strBytes (s : String) : List Nat := s.toUTF8.toList.map (fun b => b.toNat)

def sha256HexOfString (s : String) : String :=
  let d := sha256Digest (strBytes s)
  toHex8 d.a ++ toHex8 d.b ++ toHex8 d.c ++ toHex8 d.d ++
  toHex8 d.e ++ toHex8 d.f ++ toHex8 d.g ++ toHex8 d.h

/-! ### Raw parsed-entry records

A raw entry is the duck-typed record the fetch collaborator (feedparser)
returns per item. Every field is optional; a field is *truthy* in the
Python sense when it is present and non-empty. `content` holds the
`value` of each element of the multi-representation content list. -/

structure STime where
  year : Nat
  month : Nat
  day : Nat
  hour : Nat
  minute : Nat
  second : Nat
deriving Repr, DecidableEq

structure RawEntry where
  id : Option String := none
  guid : Option String := none
  link : Option String := none
  title : Option String := none
  author : Option String := none
  published : Option String := none
  published_parsed : Option STime := none
  updated_parsed : Option STime := none
  summary : Option String := none
  subtitle : Option String := none
  content : List (Option String) := []
deriving Repr, DecidableEq

/-- Python truthiness of an optional string: present and non-empty. -/
def optTruthy : Option String → Bool
  | some s => s ≠ ""
  | none => false

/-- The whitespace characters Python's `str.strip()` removes (space,
tab, newline, carriage return, vertical tab, form feed). -/
def isPySpace (c : Char) : Bool :=
  c == ' ' || c == '\t' || c == '\n' || c == '\r' || c == Char.ofNat 11 || c == Char.ofNat 12

/-- Python `str.strip()`. -/
def pyStrip (s : String) : String :=
  String.mk (((s.toList.dropWhile isPySpace).reverse.dropWhile isPySpace).reverse)

/-- ASCII lower-casing of one character (SQLite's `LIKE` folding; also
models `str.lower()` on the ASCII texts of interest). -/
def asciiLower (c : Char) : Char :=
  if 'A' ≤ c ∧ c ≤ 'Z' then Char.ofNat (c.toNat + 32) else c

/-- Python `str.lower()` restricted to ASCII folding. -/
def pyLower (s : String) : String := String.mk (s.toList.map asciiLower)

/-- Lexicographic code-point comparison of character lists; on the
UTF-8-encoded TEXT values SQLite compares, byte-wise `memcmp` order
coincides with this order. -/
def charsLe : List Char → List Char → Bool
  | [], _ => true
  | _ :: _, [] => false
  | a :: as, b :: bs =>
    if a.toNat < b.toNat then true
    else if b.toNat < a.toNat then false
    else charsLe as bs

/-- SQLite's ordering of TEXT values (BINARY collation). -/
def strLe (a b : String) : Bool := charsLe a.toList b.toList

/-! ### Normalization layer -/

/-- Source `entry_guid` (pyrss.py lines 58-71): first truthy of `id`, `guid`
(stripped), else the stripped `link`, else the SHA-256 hex digest of
`title.strip() + "|" + published.strip()` (absent fields read as `""`). -/
def entry_guid (e : RawEntry) : String :=
  if optTruthy e.id then pyStrip (e.id.getD "")
  else if optTruthy e.guid then pyStrip (e.guid.getD "")
  else if optTruthy e.link then pyStrip (e.link.getD "")
  else sha256HexOfString (pyStrip (e.title.getD "") ++ "|" ++ pyStrip (e.published.getD ""))

/-- Source `normalize_text` (lines 73-81): strip, collapse empty to absent,
hard-truncate to `max_len` code points when given. -/
def normalize_text (v : Option String) (maxLen : Option Nat) : Option String :=
  match v with
  | none => none
  | some s0 =>
    let s := pyStrip s0
    if s = "" then none
    else match maxLen with
      | some m => if s.length > m then some (s.take m) else some s
      | none => some s

/-- Source `pick_summary` (lines 83-88): first truthy of `summary`, `subtitle`,
normalized (note: a truthy whitespace-only value still returns, as
`none`, without falling through to the next key — exactly as in the
Python loop). -/
def pick_summary (e : RawEntry) : Option String :=
  if optTruthy e.summary then normalize_text e.summary none
  else if optTruthy e.subtitle then normalize_text e.subtitle none
  else none

/-- Source `pick_content` (lines 90-95): the normalized `value` of the first
element of the content list, when the list is non-empty. -/
def pick_content (e : RawEntry) : Option String :=
  match e.content with
  | [] => none
  | v :: _ => normalize_text v none

/-- Source `parse_entry_datetime` (lines 97-102): prefer `published_parsed`,
fall back to `updated_parsed`. -/
def parse_entry_datetime (e : RawEntry) : Option STime :=
  match e.published_parsed with
  | some st => some st
  | none => e.updated_parsed

/-- Zero-padded decimal rendering. -/
def padNum (w n : Nat) : String :=
  let s := toString n
  String.mk (List.replicate (w - s.length) '0') ++ s

/-- Source `to_iso_dt` on a UTC `struct_time` prefix: Python
`datetime(y,mo,d,h,mi,s, tzinfo=utc).isoformat()`. -/
def tsToIso (t : STime) : String :=
  padNum 4 t.year ++ "-" ++ padNum 2 t.month ++ "-" ++ padNum 2 t.day ++ "T" ++
  padNum 2 t.hour ++ ":" ++ padNum 2 t.minute ++ ":" ++ padNum 2 t.second ++ "+00:00"

/-! ### Stored rows (tables `feeds` and `entries`) -/

structure FeedRow where
  id : Nat
  url : String
  title : Option String
  category : String
  etag : Option String := none
  modified : Option String := none
  added_at : String
  last_checked_at : Option String := none
deriving Repr, DecidableEq

structure EntryRow where
  id : Nat
  feed_id : Nat
  guid : String
  title : Option String
  link : Option String
  author : Option String
  published_at : Option String
  summary : Option String
  content : Option String
  fetched_at : String
deriving Repr, DecidableEq

/-! ### Feed registration (`RSSStore.add_feed`, lines 290-312) -/

/-- The category normalization at the top of `add_feed`:
`(category or "default").strip() or "default"`. -/
def normCategory (category : String) : String :=
  let c1 := if category = "" then "default" else category
  let c2 := pyStrip c1
  if c2 = "" then "default" else c2

/-- Source `add_feed`: trim the URL (empty ⇒ `ValueError`); `INSERT OR IGNORE`
a fresh row keyed by the unique `url`; then
`UPDATE feeds SET category = COALESCE(NULLIF(?, ''), category) WHERE url = ?`
with the already-normalized category; finally select the row back.
`now` stands for `utc_now_iso()` and `nextId` for the AUTOINCREMENT key. -/
def add_feed (now : String) (nextId : Nat) (feeds : List FeedRow)
    (url category : String) (title : Option String) :
    Except String (List FeedRow × FeedRow) :=
  let u := pyStrip url
  let cat := normCategory category
  if u = "" then .error "Feed URL is empty."
  else
    let feeds1 := if feeds.any (fun f => f.url == u) then feeds
      else feeds ++ [{ id := nextId, url := u, title := title, category := cat, added_at := now }]
    let feeds2 := feeds1.map (fun f =>
      if f.url == u then { f with category := if cat = "" then f.category else cat } else f)
    match feeds2.find? (fun f => f.url == u) with
    | some row => .ok (feeds2, row)
    | none => .error "Failed to insert/feed lookup."

/-! ### Ingestion (`RSSStore._fetch_one_feed`, lines 357-410) -/

/-- The parsed-feed value the fetch collaborator returns for one URL. -/
structure ParsedFeed where
  status : Option Nat := none
  etag : Option String := none
  feedTitle : Option String := none
  entries : List RawEntry := []
deriving Repr, DecidableEq

/-- The `UNIQUE(feed_id, guid)` probe behind `INSERT OR IGNORE`. -/
def entryKeyPresent (db : List EntryRow) (feedId : Nat) (guid : String) : Bool :=
  db.any (fun r => r.feed_id == feedId && r.guid == guid)

/-- One row of the insert loop body (lines 386-406): every field
normalized exactly as in the source, `fetched_at` set to the pass-wide
timestamp. -/
def mkEntryRow (entryId feedId : Nat) (fetchedAt : String) (e : RawEntry) : EntryRow :=
  { id := entryId, feed_id := feedId, guid := entry_guid e,
    title := normalize_text e.title (some 2000),
    link := normalize_text e.link (some 4000),
    author := normalize_text e.author (some 1000),
    published_at := (parse_entry_datetime e).map tsToIso,
    summary := pick_summary e,
    content := pick_content e,
    fetched_at := fetchedAt }

/-- The entry loop of `_fetch_one_feed`: `INSERT OR IGNORE` each raw
entry, counting `inserted` (rowcount = 1) and `seen`. Returns
(entries table, next AUTOINCREMENT id, inserted, seen). -/
def insertEntries (feedId : Nat) (fetchedAt : String) (db : List EntryRow) (nextId : Nat) :
    List RawEntry → List EntryRow × Nat × Nat × Nat
  | [] => (db, nextId, 0, 0)
  | e :: es =>
    let guid := entry_guid e
    if entryKeyPresent db feedId guid then
      let r := insertEntries feedId fetchedAt db nextId es
      (r.1, r.2.1, r.2.2.1, r.2.2.2 + 1)
    else
      let row := mkEntryRow nextId feedId fetchedAt e
      let r := insertEntries feedId fetchedAt (db ++ [row]) (nextId + 1) es
      (r.1, r.2.1, r.2.2.1 + 1, r.2.2.2 + 1)

structure FetchOutcome where
  feed : FeedRow
  db : List EntryRow
  nextId : Nat
  inserted : Nat
  seen : Nat
deriving Repr, DecidableEq

/-- Source `_fetch_one_feed` for one feed row, given the collaborator's parsed
result `d`. `now` stands for the single `utc_now_iso()` call at line 364:
it becomes both the feed's `last_checked_at` and every inserted row's
`fetched_at`. Bookkeeping (last-checked, etag, lazily-set title) happens
before the 304 short-circuit, exactly as in the source. -/
def fetch_one_feed (now : String) (f : FeedRow) (d : ParsedFeed)
    (db : List EntryRow) (nextId : Nat) : FetchOutcome :=
  let f1 := { f with last_checked_at := some now,
                     etag := match d.etag with | some t => some t | none => f.etag }
  let f2 := if optTruthy d.feedTitle then
      { f1 with title := match f1.title with
                         | some t => some t
                         | none => normalize_text d.feedTitle (some 500) }
    else f1
  if d.status = some 304 then ⟨f2, db, nextId, 0, 0⟩
  else
    let r := insertEntries f.id now db nextId d.entries
    ⟨f2, r.1, r.2.1, r.2.2.1, r.2.2.2⟩

/-! ### Run aggregation (`RSSStore.fetch_all`, lines 332-351) -/

structure FetchError where
  feed_id : Nat
  url : String
  error : String
deriving Repr, DecidableEq

structure FetchSummary where
  feeds_total : Nat
  feeds_fetched : Nat
  entries_inserted : Nat
  entries_seen : Nat
  errors : List FetchError
deriving Repr, DecidableEq

/-- One iteration of the `for f in feeds` loop: a successful
`_fetch_one_feed` bumps the counters, a raised exception appends
`{feed_id, url, error}` to `errors` and nothing else. -/
def fetchStep (result : FeedRow → Except String (Nat × Nat))
    (s : FetchSummary) (f : FeedRow) : FetchSummary :=
  match result f with
  | .ok p =>
    { s with feeds_fetched := s.feeds_fetched + 1,
             entries_inserted := s.entries_inserted + p.1,
             entries_seen := s.entries_seen + p.2 }
  | .error e => { s with errors := s.errors ++ [⟨f.id, f.url, e⟩] }

/-- Source `fetch_all`: fold the per-feed step over the registered feeds,
starting from a summary with `feeds_total = len(feeds)` and zeroed
counters. `result f` abstracts what `_fetch_one_feed(f)` does for feed
`f`: `.ok (inserted, seen)` on success, `.error msg` when it raises. -/
def fetch_all (result : FeedRow → Except String (Nat × Nat))
    (feeds : List FeedRow) : FetchSummary :=
  feeds.foldl (fetchStep result) ⟨feeds.length, 0, 0, 0, []⟩

/-! ### Calendar arithmetic

Python's `date` arithmetic (`end_day - timedelta(days=days-1)` in
`get_updates_last_days`) over the proleptic Gregorian calendar, via the
standard civil-from-days / days-from-civil algorithms. -/

structure PDate where
  year : Int
  month : Nat
  day : Nat
deriving Repr, DecidableEq

def daysFromCivil (dt : PDate) : Int :=
  let y : Int := if dt.month ≤ 2 then dt.year - 1 else dt.year
  let era : Int := (if 0 ≤ y then y else y - 399) / 400
  let yoe : Int := y - era * 400
  let mp : Int := if 2 < dt.month then (dt.month : Int) - 3 else (dt.month : Int) + 9
  let doy : Int := (153 * mp + 2) / 5 + (dt.day : Int) - 1
  let doe : Int := yoe * 365 + yoe / 4 - yoe / 100 + doy
  era * 146097 + doe - 719468

def civilFromDays (z0 : Int) : PDate :=
  let z := z0 + 719468
  let era : Int := (if 0 ≤ z then z else z - 146096) / 146097
  let doe : Int := z - era * 146097
  let yoe : Int := (doe - doe / 1460 + doe / 36524 - doe / 146096) / 365
  let y : Int := yoe + era * 400
  let doy : Int := doe - (365 * yoe + yoe / 4 - yoe / 100)
  let mp : Int := (5 * doy + 2) / 153
  let d : Int := doy - (153 * mp + 2) / 5 + 1
  let m : Int := if mp < 10 then mp + 3 else mp - 9
  ⟨if m ≤ 2 then y + 1 else y, m.toNat, d.toNat⟩

/-- Source `day - timedelta(days=n)`. -/
def subDays (dt : PDate) (n : Int) : PDate :=
  civilFromDays (daysFromCivil dt - n)

/-- Source `datetime(day.year, day.month, day.day, 0, 0, 0, tzinfo=utc).isoformat()`. -/
def dateStartIso (dt : PDate) : String :=
  padNum 4 dt.year.toNat ++ "-" ++ padNum 2 dt.month ++ "-" ++ padNum 2 dt.day ++ "T00:00:00+00:00"

/-- Source `datetime(day.year, day.month, day.day, 23, 59, 59, tzinfo=utc).isoformat()`. -/
def dateEndIso (dt : PDate) : String :=
  padNum 4 dt.year.toNat ++ "-" ++ padNum 2 dt.month ++ "-" ++ padNum 2 dt.day ++ "T23:59:59+00:00"

/-! ### `ORDER BY ... DESC`

SQLite orders TEXT by byte-wise comparison, which on the ASCII ISO
timestamps here is Lean's lexicographic `String` order. Descending
insertion sort keyed by a string-valued function. -/

def insertByKeyDesc (key : α → String) (x : α) : List α → List α
  | [] => [x]
  | y :: ys => if strLe (key y) (key x) then x :: y :: ys else y :: insertByKeyDesc key x ys

def sortByKeyDesc (key : α → String) : List α → List α
  | [] => []
  | x :: xs => insertByKeyDesc key x (sortByKeyDesc key xs)

/-! ### Time-window queries (lines 414-467) -/

/-- The column picked by `use_published_at` (`fetched_at` is `NOT NULL`). -/
def chosenTs (usePublished : Bool) (e : EntryRow) : Option String :=
  if usePublished then e.published_at else some e.fetched_at

/-- Source `COALESCE(published_at, fetched_at)`, the sort key of
`get_updates_between`. -/
def coalesceTs (e : EntryRow) : String := e.published_at.getD e.fetched_at

/-- The `WHERE col IS NOT NULL AND col BETWEEN ? AND ?` predicate. -/
def betweenPred (usePublished : Bool) (startIso endIso : String) (e : EntryRow) : Bool :=
  match chosenTs usePublished e with
  | some v => strLe startIso v && strLe v endIso
  | none => false

/-- Source `get_updates_between` (lines 438-467). -/
def get_updates_between (db : List EntryRow) (startIso endIso : String)
    (usePublished : Bool) : List EntryRow :=
  sortByKeyDesc coalesceTs (db.filter (betweenPred usePublished startIso endIso))

/-- Source `get_updates_last_days` (lines 420-436). `today` stands for
`utc_today()`. -/
def get_updates_last_days (today : PDate) (db : List EntryRow) (days : Int)
    (usePublished : Bool) : List EntryRow :=
  if days ≤ 0 then []
  else
    let endDay := today
    let startDay := subDays today (days - 1)
    get_updates_between db (dateStartIso startDay) (dateEndIso endDay) usePublished

/-- Source `limit = max(1, min(int(limit), 500))`. -/
def clampLimit (l : Int) : Int := max 1 (min l 500)

/-- Source `COALESCE({col}, fetched_at)` with `col` picked by
`use_published_at` — the ORDER BY key of `get_last_entries_for_feed`. -/
def orderKeyForFeed (usePublished : Bool) (e : EntryRow) : String :=
  if usePublished then e.published_at.getD e.fetched_at else e.fetched_at

/-- Source `get_last_entries_for_feed` (lines 477-513). -/
def get_last_entries_for_feed (db : List EntryRow) (feedId : Nat) (limit : Int)
    (usePublished : Bool) : List EntryRow :=
  let lim := clampLimit limit
  (sortByKeyDesc (orderKeyForFeed usePublished)
    (db.filter (fun e => e.feed_id == feedId))).take lim.toNat

/-! ### Feed filters (lines 130-139, 611-678) -/

structure FeedFilter where
  id : Nat
  feed_id : Nat
  name : String
  include_keywords : List String
  exclude_keywords : List String
  match_fields : List String
  is_case_sensitive : Bool
  is_enabled : Bool
deriving Repr, DecidableEq

/-- Python's substring test `needle in hay`. -/
def strContainsSub (hay needle : String) : Bool :=
  hay.toList.tails.any (fun t => needle.toList.isPrefixOf t)

/-- Source `getattr(entry, field, None)` for the validated field vocabulary
`{title, summary, content}`. -/
def entry_field (e : EntryRow) : String → Option String
  | "title" => e.title
  | "summary" => e.summary
  | "content" => e.content
  | _ => none

/-- Source `_entry_matches_filter` (lines 659-678): concatenate the truthy
scoped field values with `"\n"`, lower-case haystack and keywords unless
case-sensitive, then require every include keyword and no exclude
keyword as substrings. -/
def entry_matches_filter (e : EntryRow) (flt : FeedFilter) : Bool :=
  let chunks := flt.match_fields.filterMap (fun fld =>
    match entry_field e fld with
    | some v => if v = "" then none else some v
    | none => none)
  let haystack := String.intercalate "\n" chunks
  let hay := if flt.is_case_sensitive then haystack else pyLower haystack
  let inc := if flt.is_case_sensitive then flt.include_keywords
    else flt.include_keywords.map pyLower
  let exc := if flt.is_case_sensitive then flt.exclude_keywords
    else flt.exclude_keywords.map pyLower
  inc.all (fun k => strContainsSub hay k) && !(exc.any (fun k => strContainsSub hay k))

/-- Source `_entry_matches_any_filter` (lines 652-657). -/
def entry_matches_any_filter (e : EntryRow) (filters : List FeedFilter) : Bool :=
  filters.any (entry_matches_filter e)

/-- Source `list_feed_filters` (lines 611-633) restricted as the claims use it.
The stored list is kept in insertion (id) order, so for a single feed
the SQL `ORDER BY feed_id, id` coincides with plain filtering. -/
def list_feed_filters (filters : List FeedFilter) (feedId : Option Nat)
    (onlyEnabled : Bool) : List FeedFilter :=
  filters.filter (fun f =>
    (match feedId with | some i => f.feed_id == i | none => true) &&
    (!onlyEnabled || f.is_enabled))

/-- Source `get_filtered_entries_for_feed` (lines 645-650): recent entries of
the feed, passed through the enabled filters — or returned unfiltered
when no filter is active. -/
def get_filtered_entries_for_feed (db : List EntryRow) (filters : List FeedFilter)
    (feedId : Nat) (limit : Int) (usePublished : Bool) : List EntryRow :=
  let entries := get_last_entries_for_feed db feedId limit usePublished
  let flts := list_feed_filters filters (some feedId) true
  if flts.isEmpty then entries
  else entries.filter (fun e => entry_matches_any_filter e flts)

/-! ### Search (lines 682-769) -/

/-- SQLite `LIKE` matching, fuel-recursive so that the kernel can
evaluate it: `%` matches any sequence, `_` any single character, letters
compared ASCII-case-insensitively. Every step consumes one unit of
`p.length + s.length`, so the fuel supplied by `likeMatch` below never
runs out. -/
def likeMatchF : Nat → List Char → List Char → Bool
  | 0, _, _ => false
  | fuel + 1, p, s =>
    match p, s with
    | [], s => s.isEmpty
    | '%' :: p, s =>
        likeMatchF fuel p s ||
        (match s with
         | [] => false
         | _ :: s' => likeMatchF fuel ('%' :: p) s')
    | '_' :: p, s =>
        (match s with
         | [] => false
         | _ :: s' => likeMatchF fuel p s')
    | c :: p, s =>
        (match s with
         | [] => false
         | c' :: s' => asciiLower c == asciiLower c' && likeMatchF fuel p s')

/-- The `column LIKE pattern` test on character lists. -/
def likeMatch (p s : List Char) : Bool := likeMatchF (p.length + s.length + 1) p s

/-- Source `column LIKE pattern`: a NULL column yields NULL, which the WHERE
clause treats as no match. -/
def likeField (pat : String) : Option String → Bool
  | none => false
  | some s => likeMatch pat.toList s.toList

/-- The `WHERE (e.title LIKE ? OR e.summary LIKE ?)` predicate of
`_search_like` with parameter `"%" + q + "%"`. -/
def searchLikePred (q : String) (e : EntryRow) : Bool :=
  likeField ("%" ++ q ++ "%") e.title || likeField ("%" ++ q ++ "%") e.summary

/-- Source `JOIN feeds d ON d.id = e.feed_id` plus the optional
`AND d.category = ?` (feed ids are the table's PRIMARY KEY, so the join
is a filter). -/
def feedCatOk (feeds : List FeedRow) (category : Option String) (e : EntryRow) : Bool :=
  feeds.any (fun d => d.id == e.feed_id &&
    (match category with | some c => d.category == c | none => true))

/-- Source `_search_like` (lines 733-769): substring (`LIKE`) match on title
and summary, category restriction via the feeds join, ordered by
`COALESCE(published_at, fetched_at) DESC`, truncated to `limit`. -/
def search_like (db : List EntryRow) (feeds : List FeedRow) (q : String)
    (lim : Int) (category : Option String) : List EntryRow :=
  (sortByKeyDesc coalesceTs
    (db.filter (fun e => searchLikePred q e && feedCatOk feeds category e))).take lim.toNat

/-- Source `search` (lines 682-691). `ftsPath` abstracts `_search_fts`, whose
behaviour is owned by the external FTS5 engine; the fallback path is the
concrete `search_like` over the store. -/
def search (ftsPath : String → Int → Option String → List EntryRow)
    (db : List EntryRow) (feeds : List FeedRow) (ftsEnabled : Bool)
    (query : String) (limit : Int) (category : Option String) : List EntryRow :=
  let q := pyStrip query
  if q = "" then []
  else
    let lim := clampLimit limit
    if ftsEnabled then ftsPath q lim category
    else search_like db feeds q lim category

/-! ### Lemmas about the BINARY collation and the descending sort -/

theorem charsLe_total (x : List Char) : ∀ y, charsLe x y = true ∨ charsLe y x = true := by
  induction x with
  | nil => intro y; left; rfl
  | cons a as ih =>
    intro y
    cases y with
    | nil => right; rfl
    | cons b bs =>
      simp only [charsLe]
      rcases Nat.lt_trichotomy a.toNat b.toNat with hab | hab | hab
      · left
        simp [hab]
      · have h1 : ¬ a.toNat < b.toNat := by omega
        have h2 : ¬ b.toNat < a.toNat := by omega
        simpa [h1, h2, hab] using ih bs
      · right
        simp [hab]

theorem charsLe_trans (x : List Char) :
    ∀ y z, charsLe x y = true → charsLe y z = true → charsLe x z = true := by
  induction x with
  | nil => intro y z _ _; rfl
  | cons a as ih =>
    intro y z hxy hyz
    cases y with
    | nil => simp [charsLe] at hxy
    | cons b bs =>
      cases z with
      | nil => simp [charsLe] at hyz
      | cons c cs =>
        simp only [charsLe] at hxy hyz ⊢
        rcases Nat.lt_trichotomy a.toNat b.toNat with hab | hab | hab
        · rcases Nat.lt_trichotomy b.toNat c.toNat with hbc | hbc | hbc
          · simp [show a.toNat < c.toNat by omega]
          · simp [show a.toNat < c.toNat by omega]
          · simp [show ¬ b.toNat < c.toNat by omega,
                  show c.toNat < b.toNat from hbc] at hyz
        · rcases Nat.lt_trichotomy b.toNat c.toNat with hbc | hbc | hbc
          · simp [show a.toNat < c.toNat by omega]
          · have h1 : ¬ a.toNat < c.toNat := by omega
            have h2 : ¬ c.toNat < a.toNat := by omega
            simp only [h1, if_false, h2]
            have hxy2 : charsLe as bs = true := by
              simpa [show ¬ a.toNat < b.toNat by omega,
                     show ¬ b.toNat < a.toNat by omega] using hxy
            have hyz2 : charsLe bs cs = true := by
              simpa [show ¬ b.toNat < c.toNat by omega,
                     show ¬ c.toNat < b.toNat by omega] using hyz
            simpa using ih bs cs hxy2 hyz2
          · simp [show ¬ b.toNat < c.toNat by omega,
                  show c.toNat < b.toNat from hbc] at hyz
        · simp [show ¬ a.toNat < b.toNat by omega,
                show b.toNat < a.toNat from hab] at hxy

theorem strLe_total (a b : String) : strLe a b = true ∨ strLe b a = true :=
  charsLe_total a.toList b.toList

theorem strLe_trans {a b c : String} (h1 : strLe a b = true) (h2 : strLe b c = true) :
    strLe a c = true :=
  charsLe_trans a.toList b.toList c.toList h1 h2

theorem strLe_of_not_strLe {a b : String} (h : ¬ strLe a b = true) : strLe b a = true :=
  (strLe_total a b).resolve_left h

theorem mem_insertByKeyDesc {α : Type} (key : α → String) (x a : α) (l : List α) :
    a ∈ insertByKeyDesc key x l ↔ a = x ∨ a ∈ l := by
  induction l with
  | nil => simp [insertByKeyDesc]
  | cons y ys ih =>
    simp only [insertByKeyDesc]
    by_cases hle : strLe (key y) (key x) = true
    · simp [hle, List.mem_cons]
    · rw [if_neg hle]
      simp only [List.mem_cons, ih]
      tauto

theorem mem_sortByKeyDesc {α : Type} (key : α → String) (a : α) (l : List α) :
    a ∈ sortByKeyDesc key l ↔ a ∈ l := by
  induction l with
  | nil => simp [sortByKeyDesc]
  | cons x xs ih => simp [sortByKeyDesc, mem_insertByKeyDesc, ih, List.mem_cons]

theorem pairwise_insertByKeyDesc {α : Type} (key : α → String) (x : α) (l : List α)
    (h : l.Pairwise (fun a b => strLe (key b) (key a) = true)) :
    (insertByKeyDesc key x l).Pairwise (fun a b => strLe (key b) (key a) = true) := by
  induction l with
  | nil => simp [insertByKeyDesc]
  | cons y ys ih =>
    rcases List.pairwise_cons.mp h with ⟨hy, hys⟩
    simp only [insertByKeyDesc]
    by_cases hle : strLe (key y) (key x) = true
    · rw [if_pos hle]
      refine List.pairwise_cons.mpr ⟨?_, h⟩
      intro b hb
      rcases List.mem_cons.mp hb with rfl | hb2
      · exact hle
      · exact strLe_trans (hy b hb2) hle
    · rw [if_neg hle]
      refine List.pairwise_cons.mpr ⟨?_, ih hys⟩
      intro b hb
      rcases (mem_insertByKeyDesc key x b ys).mp hb with rfl | hb2
      · exact strLe_of_not_strLe hle
      · exact hy b hb2

theorem pairwise_sortByKeyDesc {α : Type} (key : α → String) (l : List α) :
    (sortByKeyDesc key l).Pairwise (fun a b => strLe (key b) (key a) = true) := by
  induction l with
  | nil => simp [sortByKeyDesc]
  | cons x xs ih => exact pairwise_insertByKeyDesc key x _ ih

theorem insertByKeyDesc_map {α : Type} (key : α → String) (g : α → α)
    (hg : ∀ a, key (g a) = key a) (x : α) (l : List α) :
    insertByKeyDesc key (g x) (l.map g) = (insertByKeyDesc key x l).map g := by
  induction l with
  | nil => simp [insertByKeyDesc]
  | cons y ys ih =>
    simp only [List.map_cons, insertByKeyDesc, hg]
    by_cases hle : strLe (key y) (key x) = true
    · rw [if_pos hle, if_pos hle]
      simp
    · rw [if_neg hle, if_neg hle]
      simp [ih]

theorem sortByKeyDesc_map {α : Type} (key : α → String) (g : α → α)
    (hg : ∀ a, key (g a) = key a) (l : List α) :
    sortByKeyDesc key (l.map g) = (sortByKeyDesc key l).map g := by
  induction l with
  | nil => simp [sortByKeyDesc]
  | cons x xs ih =>
    simp only [List.map_cons, sortByKeyDesc, ih, insertByKeyDesc_map key g hg]

/-! ### Claim C2: content-identifier derivation -/

/-- C2: for every raw entry record, `entry_guid` follows the fixed
priority: a truthy native `id` is returned (stripped); else a truthy
`guid`; else the link URL; else the SHA-256 hash of
`title + "|" + published`; and the function is deterministic —
identical inputs always yield identical identifiers. -/
theorem entry_guid_priority (e : RawEntry) :
    (∀ v, e.id = some v → v ≠ "" → entry_guid e = pyStrip v) ∧
    (optTruthy e.id = false → ∀ v, e.guid = some v → v ≠ "" → entry_guid e = pyStrip v) ∧
    (optTruthy e.id = false → optTruthy e.guid = false →
      ∀ v, e.link = some v → v ≠ "" → entry_guid e = pyStrip v) ∧
    (optTruthy e.id = false → optTruthy e.guid = false → optTruthy e.link = false →
      entry_guid e =
        sha256HexOfString (pyStrip (e.title.getD "") ++ "|" ++ pyStrip (e.published.getD ""))) ∧
    (∀ e₂, e = e₂ → entry_guid e = entry_guid e₂) := by
  refine ⟨?_, ?_, ?_, ?_, ?_⟩
  · intro v hv hne
    have ht : optTruthy e.id = true := by simp [optTruthy, hv, hne]
    simp only [entry_guid, ht, if_true]
    simp [hv]
  · intro hid v hv hne
    have ht : optTruthy e.guid = true := by simp [optTruthy, hv, hne]
    simp only [entry_guid, hid, ht, Bool.false_eq_true, if_false, if_true]
    simp [hv]
  · intro hid hguid v hv hne
    have ht : optTruthy e.link = true := by simp [optTruthy, hv, hne]
    simp only [entry_guid, hid, hguid, ht, Bool.false_eq_true, if_false, if_true]
    simp [hv]
  · intro hid hguid hlink
    simp [entry_guid, hid, hguid, hlink]
  · intro e₂ h
    rw [h]

/-- Witness for C2 at the repo's own test vector: an entry with both a
native id and a guid takes the id. -/
theorem entry_guid_priority_witness :
    entry_guid { id := some "abc-123", guid := some "ignored",
                 link := some "https://example.com" } = pyStrip "abc-123" :=
  (entry_guid_priority _).1 "abc-123" rfl (by decide)

/-! ### Claim C5: idempotent registration / category update -/

/-- C5 (evaluation at the failing input): registering
`https://example.com/rss` first with category `"tech"` and then with an
empty category does not keep `"tech"` — the most recently supplied
*non-empty* value — because `add_feed` normalizes the empty category to
`"default"` before the SQL guard `COALESCE(NULLIF(?, ''), category)`
ever sees it, so the guard written to skip empty categories is dead and
the stored category becomes `"default"`. The feed row is still not
duplicated (one row before and after). -/
theorem add_feed_empty_category_overwrites :
    (add_feed "t1" 1 [] "https://example.com/rss" "tech" none).toOption.map
        (fun p => (p.1.length, p.2.category)) = some (1, "tech") ∧
    ((add_feed "t1" 1 [] "https://example.com/rss" "tech" none).bind
        (fun p => add_feed "t2" 2 p.1 "https://example.com/rss" "" none)).toOption.map
        (fun p => (p.1.length, p.2.category)) = some (1, "default") ∧
    "default" ≠ "tech" := by
  refine ⟨by rfl, by rfl, by decide⟩

/-! ### Claim C3: per-feed error isolation in `fetch_all` -/

theorem fetchAll_total_aux (result : FeedRow → Except String (Nat × Nat))
    (feeds : List FeedRow) :
    ∀ s, (feeds.foldl (fetchStep result) s).feeds_total = s.feeds_total := by
  induction feeds with
  | nil => intro s; rfl
  | cons f fs ih =>
    intro s
    rw [List.foldl_cons, ih]
    cases hr : result f <;> simp [fetchStep, hr]

theorem fetchAll_errors_aux (result : FeedRow → Except String (Nat × Nat))
    (feeds : List FeedRow) :
    ∀ s, (feeds.foldl (fetchStep result) s).errors =
      s.errors ++ feeds.filterMap (fun f =>
        match result f with
        | .error e => some ⟨f.id, f.url, e⟩
        | .ok _ => none) := by
  induction feeds with
  | nil => intro s; simp
  | cons f fs ih =>
    intro s
    rw [List.foldl_cons, ih, List.filterMap_cons]
    cases hr : result f <;> simp [fetchStep, hr]

theorem fetchAll_fetched_aux (result : FeedRow → Except String (Nat × Nat))
    (feeds : List FeedRow) :
    ∀ s, (feeds.foldl (fetchStep result) s).feeds_fetched =
      s.feeds_fetched + feeds.countP (fun f => (result f).isOk) := by
  induction feeds with
  | nil => intro s; simp
  | cons f fs ih =>
    intro s
    rw [List.foldl_cons, ih, List.countP_cons]
    cases hr : result f <;> simp [fetchStep, hr, Except.isOk, Except.toBool] <;> omega

theorem fetchAll_balance_aux (result : FeedRow → Except String (Nat × Nat))
    (feeds : List FeedRow) :
    ∀ s, (feeds.foldl (fetchStep result) s).feeds_fetched +
        (feeds.foldl (fetchStep result) s).errors.length =
      s.feeds_fetched + s.errors.length + feeds.length := by
  induction feeds with
  | nil => intro s; simp
  | cons f fs ih =>
    intro s
    rw [List.foldl_cons, ih, List.length_cons]
    cases hr : result f <;> simp [fetchStep, hr] <;> omega

/-- C3: `fetch_all` never aborts: its summary always reports
`feeds_total = len(feeds)`; its `errors` list is exactly one
`{feed_id, url, error}` record per failing feed, in feed order; every
feed is either fetched or recorded as an error; and even when every feed
fails the run still completes with one error per registered feed. -/
theorem fetch_all_isolates_errors (result : FeedRow → Except String (Nat × Nat))
    (feeds : List FeedRow) :
    (fetch_all result feeds).feeds_total = feeds.length ∧
    (fetch_all result feeds).errors = feeds.filterMap (fun f =>
      match result f with
      | .error e => some ⟨f.id, f.url, e⟩
      | .ok _ => none) ∧
    (fetch_all result feeds).feeds_fetched + (fetch_all result feeds).errors.length =
      feeds.length ∧
    ((∀ f ∈ feeds, ∃ e, result f = Except.error e) →
      (fetch_all result feeds).errors.length = feeds.length) := by
  refine ⟨?_, ?_, ?_, ?_⟩
  · rw [fetch_all, fetchAll_total_aux]
  · rw [fetch_all, fetchAll_errors_aux]
    rfl
  · have h : (fetch_all result feeds).feeds_fetched + (fetch_all result feeds).errors.length =
        0 + 0 + feeds.length :=
      fetchAll_balance_aux result feeds ⟨feeds.length, 0, 0, 0, []⟩
    omega
  · intro hall
    have hbal : (fetch_all result feeds).feeds_fetched + (fetch_all result feeds).errors.length =
        0 + 0 + feeds.length :=
      fetchAll_balance_aux result feeds ⟨feeds.length, 0, 0, 0, []⟩
    have hfetched : (fetch_all result feeds).feeds_fetched =
        0 + feeds.countP (fun f => (result f).isOk) :=
      fetchAll_fetched_aux result feeds ⟨feeds.length, 0, 0, 0, []⟩
    have hzero : feeds.countP (fun f => (result f).isOk) = 0 := by
      rw [List.countP_eq_zero]
      intro f hf
      rcases hall f hf with ⟨e, he⟩
      simp [he, Except.isOk, Except.toBool]
    omega

def sampleFeedsC3 : List FeedRow :=
  [{ id := 1, url := "http://a", title := none, category := "default", added_at := "t0" },
   { id := 2, url := "http://b", title := none, category := "news", added_at := "t0" }]

def sampleResultC3 : FeedRow → Except String (Nat × Nat) :=
  fun f => Except.error ("DNS failure for " ++ f.url)

/-- Witness for C3: a run in which every registered feed fails still
completes, with `feeds_total` intact and one error record per feed. -/
theorem fetch_all_isolates_errors_witness :
    (fetch_all sampleResultC3 sampleFeedsC3).feeds_total = sampleFeedsC3.length ∧
    (fetch_all sampleResultC3 sampleFeedsC3).errors.length = sampleFeedsC3.length :=
  ⟨(fetch_all_isolates_errors sampleResultC3 sampleFeedsC3).1,
   (fetch_all_isolates_errors sampleResultC3 sampleFeedsC3).2.2.2
     (by intro f hf; exact ⟨_, rfl⟩)⟩

/-! ### Claim C4: trailing-N-days window -/

/-- C4: `get_updates_last_days(n)` with `n ≤ 0` returns an empty result
without error; with `n ≥ 1` it returns exactly the stored entries whose
chosen timestamp column (published when `use_published_at`, fetched
otherwise) is present and lies within the inclusive window
`[today - (n-1) days at 00:00:00Z, today at 23:59:59Z]` (`n = 1` means
today only; entries with an absent chosen column are excluded entirely),
ordered by `COALESCE(published_at, fetched_at)` descending under
SQLite's TEXT collation `strLe`. -/
theorem updates_last_days_window (today : PDate) (db : List EntryRow) (days : Int)
    (usePublished : Bool) :
    (days ≤ 0 → get_updates_last_days today db days usePublished = []) ∧
    (0 < days →
      (∀ e, e ∈ get_updates_last_days today db days usePublished ↔
        e ∈ db ∧ ∃ t, chosenTs usePublished e = some t ∧
          strLe (dateStartIso (subDays today (days - 1))) t = true ∧
          strLe t (dateEndIso today) = true) ∧
      (get_updates_last_days today db days usePublished).Pairwise
        (fun a b => strLe (coalesceTs b) (coalesceTs a) = true)) := by
  constructor
  · intro h
    simp [get_updates_last_days, h]
  · intro h
    have hneg : ¬ days ≤ 0 := by omega
    constructor
    · intro e
      simp only [get_updates_last_days, if_neg hneg, get_updates_between,
        mem_sortByKeyDesc, List.mem_filter]
      constructor
      · rintro ⟨hmem, hpred⟩
        refine ⟨hmem, ?_⟩
        unfold betweenPred at hpred
        cases hc : chosenTs usePublished e with
        | none => rw [hc] at hpred; cases hpred
        | some t =>
          rw [hc] at hpred
          simp only [Bool.and_eq_true] at hpred
          exact ⟨t, rfl, hpred.1, hpred.2⟩
      · rintro ⟨hmem, t, hc, h1, h2⟩
        refine ⟨hmem, ?_⟩
        unfold betweenPred
        rw [hc]
        simp [h1, h2]
    · simp only [get_updates_last_days, if_neg hneg, get_updates_between]
      exact pairwise_sortByKeyDesc _ _

def sampleDbC4 : List EntryRow :=
  [{ id := 1, feed_id := 1, guid := "g1", title := some "In window",
     link := none, author := none, published_at := some "2026-10-11T08:00:00+00:00",
     summary := none, content := none, fetched_at := "2026-10-12T09:00:00+00:00" },
   { id := 2, feed_id := 1, guid := "g2", title := some "No published stamp",
     link := none, author := none, published_at := none,
     summary := none, content := none, fetched_at := "2026-10-12T09:00:00+00:00" }]

/-- Witness for C4: a negative `n` yields the empty result, and with
`n = 3` on 2026-10-12 an entry published 2026-10-11 is in the window. -/
theorem updates_last_days_window_witness :
    get_updates_last_days ⟨2026, 10, 12⟩ sampleDbC4 (-2) true = [] ∧
    sampleDbC4.head? = some
      { id := 1, feed_id := 1, guid := "g1", title := some "In window",
        link := none, author := none, published_at := some "2026-10-11T08:00:00+00:00",
        summary := none, content := none, fetched_at := "2026-10-12T09:00:00+00:00" } ∧
    { id := 1, feed_id := 1, guid := "g1", title := some "In window",
      link := none, author := none, published_at := some "2026-10-11T08:00:00+00:00",
      summary := none, content := none,
      fetched_at := "2026-10-12T09:00:00+00:00" } ∈
      get_updates_last_days ⟨2026, 10, 12⟩ sampleDbC4 3 true := by
  refine ⟨(updates_last_days_window ⟨2026, 10, 12⟩ sampleDbC4 (-2) true).1 (by decide),
          by decide, ?_⟩
  refine (((updates_last_days_window ⟨2026, 10, 12⟩ sampleDbC4 3 true).2 (by decide)).1 _).mpr
    ⟨by decide, "2026-10-11T08:00:00+00:00", by decide, by decide, by decide⟩

/-! ### Claim C1: ingestion is idempotent on content -/

/-- The `UNIQUE(feed_id, guid)` invariant of the `entries` table. -/
def entriesUnique (db : List EntryRow) : Prop :=
  db.Pairwise (fun a b => ¬(a.feed_id = b.feed_id ∧ a.guid = b.guid))

theorem insertEntries_seen (feedId : Nat) (t : String) :
    ∀ (es : List RawEntry) (db : List EntryRow) (nid : Nat),
      (insertEntries feedId t db nid es).2.2.2 = es.length := by
  intro es
  induction es with
  | nil => intro db nid; rfl
  | cons e es ih =>
    intro db nid
    simp only [insertEntries]
    split <;> simp [ih]

theorem insertEntries_mono (feedId : Nat) (t : String) :
    ∀ (es : List RawEntry) (db : List EntryRow) (nid : Nat) (r : EntryRow),
      r ∈ db → r ∈ (insertEntries feedId t db nid es).1 := by
  intro es
  induction es with
  | nil => intro db nid r hr; exact hr
  | cons e es ih =>
    intro db nid r hr
    simp only [insertEntries]
    split
    · exact ih db nid r hr
    · exact ih _ _ r (List.mem_append_left _ hr)

theorem insertEntries_all_present (feedId : Nat) (t : String) :
    ∀ (es : List RawEntry) (db : List EntryRow) (nid : Nat) (e : RawEntry), e ∈ es →
      entryKeyPresent (insertEntries feedId t db nid es).1 feedId (entry_guid e) = true := by
  intro es
  induction es with
  | nil => intro db nid e he; cases he
  | cons e0 es ih =>
    intro db nid e he
    simp only [insertEntries]
    rcases List.mem_cons.mp he with rfl | he2
    · by_cases hp : entryKeyPresent db feedId (entry_guid e) = true
      · rw [if_pos hp]
        rcases List.any_eq_true.mp hp with ⟨r, hr, hpr⟩
        exact List.any_eq_true.mpr ⟨r, insertEntries_mono feedId t es db nid r hr, hpr⟩
      · rw [if_neg hp]
        refine List.any_eq_true.mpr ⟨mkEntryRow nid feedId t e, ?_, by simp [mkEntryRow]⟩
        exact insertEntries_mono feedId t es _ _ _ (List.mem_append_right _ (List.mem_singleton.mpr rfl))
    · by_cases hp : entryKeyPresent db feedId (entry_guid e0) = true
      · rw [if_pos hp]
        exact ih db nid e he2
      · rw [if_neg hp]
        exact ih _ _ e he2

theorem insertEntries_noop (feedId : Nat) (t : String) :
    ∀ (es : List RawEntry) (db : List EntryRow) (nid : Nat),
      (∀ e ∈ es, entryKeyPresent db feedId (entry_guid e) = true) →
      insertEntries feedId t db nid es = (db, nid, 0, es.length) := by
  intro es
  induction es with
  | nil => intro db nid _; rfl
  | cons e es ih =>
    intro db nid hall
    have hp : entryKeyPresent db feedId (entry_guid e) = true :=
      hall e (List.mem_cons_self e es)
    simp only [insertEntries, if_pos hp]
    rw [ih db nid (fun e2 he2 => hall e2 (List.mem_cons_of_mem e he2))]
    rfl

theorem insertEntries_unique (feedId : Nat) (t : String) :
    ∀ (es : List RawEntry) (db : List EntryRow) (nid : Nat),
      entriesUnique db → entriesUnique (insertEntries feedId t db nid es).1 := by
  intro es
  induction es with
  | nil => intro db nid h; exact h
  | cons e es ih =>
    intro db nid h
    simp only [insertEntries]
    by_cases hp : entryKeyPresent db feedId (entry_guid e) = true
    · rw [if_pos hp]
      exact ih db nid h
    · rw [if_neg hp]
      apply ih
      unfold entriesUnique at h ⊢
      rw [List.pairwise_append]
      refine ⟨h, List.pairwise_singleton _ _, ?_⟩
      intro a ha b hb
      rcases List.mem_singleton.mp hb with rfl
      rintro ⟨hfid, hguid⟩
      apply hp
      refine List.any_eq_true.mpr ⟨a, ha, ?_⟩
      simp only [mkEntryRow] at hfid hguid
      simp [hfid, hguid]

theorem fetch_one_feed_id (now : String) (f : FeedRow) (d : ParsedFeed)
    (db : List EntryRow) (nid : Nat) :
    (fetch_one_feed now f d db nid).feed.id = f.id := by
  by_cases hs : d.status = some 304 <;>
    by_cases ht : optTruthy d.feedTitle = true <;>
      simp [fetch_one_feed, hs, ht]

theorem fetch_one_feed_components (now : String) (f : FeedRow) (d : ParsedFeed)
    (db : List EntryRow) (nid : Nat) (h : d.status ≠ some 304) :
    (fetch_one_feed now f d db nid).db = (insertEntries f.id now db nid d.entries).1 ∧
    (fetch_one_feed now f d db nid).nextId = (insertEntries f.id now db nid d.entries).2.1 ∧
    (fetch_one_feed now f d db nid).inserted = (insertEntries f.id now db nid d.entries).2.2.1 ∧
    (fetch_one_feed now f d db nid).seen = (insertEntries f.id now db nid d.entries).2.2.2 := by
  by_cases ht : optTruthy d.feedTitle = true <;> simp [fetch_one_feed, h, ht]

/-- C1: re-ingesting the same parsed feed content a second time inserts
zero new entries and leaves the entries table unchanged, while
`entries_seen` still counts every returned entry on each run; the
`(feed_id, guid)` pairs stay unique across both passes. -/
theorem ingest_idempotent (now1 now2 : String) (f : FeedRow) (d : ParsedFeed)
    (db : List EntryRow) (nid : Nat) (r1 r2 : FetchOutcome)
    (hstatus : d.status ≠ some 304) (hu : entriesUnique db)
    (h1 : r1 = fetch_one_feed now1 f d db nid)
    (h2 : r2 = fetch_one_feed now2 r1.feed d r1.db r1.nextId) :
    r1.seen = d.entries.length ∧ r2.seen = d.entries.length ∧
    r2.inserted = 0 ∧ r2.db = r1.db ∧ entriesUnique r1.db ∧ entriesUnique r2.db := by
  subst h2
  subst h1
  have hid := fetch_one_feed_id now1 f d db nid
  obtain ⟨c1db, c1nid, c1ins, c1seen⟩ := fetch_one_feed_components now1 f d db nid hstatus
  rw [c1seen, c1db, c1nid]
  obtain ⟨c2db, c2nid, c2ins, c2seen⟩ := fetch_one_feed_components now2
      (fetch_one_feed now1 f d db nid).feed d
      (insertEntries f.id now1 db nid d.entries).1
      (insertEntries f.id now1 db nid d.entries).2.1 hstatus
  rw [hid] at c2db c2ins c2seen
  rw [c2db, c2ins, c2seen]
  have hall : ∀ e ∈ d.entries,
      entryKeyPresent (insertEntries f.id now1 db nid d.entries).1 f.id (entry_guid e) = true :=
    fun e he => insertEntries_all_present f.id now1 d.entries db nid e he
  have hnoop := insertEntries_noop f.id now2 d.entries
      (insertEntries f.id now1 db nid d.entries).1
      (insertEntries f.id now1 db nid d.entries).2.1 hall
  rw [hnoop]
  exact ⟨insertEntries_seen f.id now1 d.entries db nid, rfl, rfl, rfl,
         insertEntries_unique f.id now1 d.entries db nid hu,
         insertEntries_unique f.id now1 d.entries db nid hu⟩

def sampleFeedC1 : FeedRow :=
  { id := 7, url := "http://feed", title := none, category := "default", added_at := "t0" }

def sampleParsedC1 : ParsedFeed :=
  { status := some 200,
    entries := [{ id := some "item-1", title := some "Hello" },
                { guid := some "item-2", link := some "http://feed/2" }] }

def sampleRun1 : FetchOutcome := fetch_one_feed "t1" sampleFeedC1 sampleParsedC1 [] 1

def sampleRun2 : FetchOutcome :=
  fetch_one_feed "t2" sampleRun1.feed sampleParsedC1 sampleRun1.db sampleRun1.nextId

/-- Witness for C1: a concrete two-entry feed ingested twice from an
empty store. -/
theorem ingest_idempotent_witness :
    sampleRun1.seen = sampleParsedC1.entries.length ∧
    sampleRun2.seen = sampleParsedC1.entries.length ∧
    sampleRun2.inserted = 0 ∧ sampleRun2.db = sampleRun1.db ∧
    entriesUnique sampleRun1.db ∧ entriesUnique sampleRun2.db :=
  ingest_idempotent "t1" "t2" sampleFeedC1 sampleParsedC1 [] 1 sampleRun1 sampleRun2
    (by decide) List.Pairwise.nil rfl rfl

/-! ### Claim C9: display title is write-once -/

/-- C9: during ingestion the stored feed title is set from the fetch
result only when no title is stored yet; once non-null it is never
changed by a later pass (first-write-wins). -/
theorem feed_title_write_once (now : String) (f : FeedRow) (d : ParsedFeed)
    (db : List EntryRow) (nid : Nat) :
    (∀ t, f.title = some t → (fetch_one_feed now f d db nid).feed.title = some t) ∧
    (f.title = none → optTruthy d.feedTitle = true →
      (fetch_one_feed now f d db nid).feed.title = normalize_text d.feedTitle (some 500)) ∧
    (f.title = none → optTruthy d.feedTitle = false →
      (fetch_one_feed now f d db nid).feed.title = none) := by
  refine ⟨?_, ?_, ?_⟩
  · intro t htitle
    by_cases hs : d.status = some 304 <;>
      by_cases ht : optTruthy d.feedTitle = true <;>
        simp [fetch_one_feed, hs, ht, htitle]
  · intro htitle ht
    by_cases hs : d.status = some 304 <;>
      simp [fetch_one_feed, hs, ht, htitle]
  · intro htitle ht
    by_cases hs : d.status = some 304 <;>
      simp [fetch_one_feed, hs, ht, htitle]

def sampleFeedC9 : FeedRow :=
  { id := 3, url := "http://f9", title := some "Kept Title", category := "default",
    added_at := "t0" }

/-- Witness for C9: a feed whose stored title survives a fetch that
carries a different feed-level title. -/
theorem feed_title_write_once_witness :
    (fetch_one_feed "t5" sampleFeedC9 { feedTitle := some "New Title" } [] 1).feed.title =
      some "Kept Title" :=
  (feed_title_write_once "t5" sampleFeedC9 { feedTitle := some "New Title" } [] 1).1
    "Kept Title" rfl

/-! ### Claim C10: one `fetched_at` per ingestion pass -/

theorem insertEntries_fetched (feedId : Nat) (t : String) :
    ∀ (es : List RawEntry) (db : List EntryRow) (nid : Nat) (e : EntryRow),
      e ∈ (insertEntries feedId t db nid es).1 → e ∈ db ∨ e.fetched_at = t := by
  intro es
  induction es with
  | nil => intro db nid e he; exact Or.inl he
  | cons e0 es ih =>
    intro db nid e he
    simp only [insertEntries] at he
    by_cases hp : entryKeyPresent db feedId (entry_guid e0) = true
    · rw [if_pos hp] at he
      exact ih db nid e he
    · rw [if_neg hp] at he
      rcases ih _ _ e he with hmem | hfe
      · rcases List.mem_append.mp hmem with h1 | h2
        · exact Or.inl h1
        · rcases List.mem_singleton.mp h2 with rfl
          exact Or.inr rfl
      · exact Or.inr hfe

/-- C10: the single `utc_now_iso()` taken before the entry loop (the
`now` parameter) becomes both the feed's recorded `last_checked_at` and
the `fetched_at` of every entry the pass inserts — no row gets its own
insertion-time stamp. -/
theorem fetched_at_uniform (now : String) (f : FeedRow) (d : ParsedFeed)
    (db : List EntryRow) (nid : Nat) :
    (fetch_one_feed now f d db nid).feed.last_checked_at = some now ∧
    ∀ e ∈ (fetch_one_feed now f d db nid).db, e ∈ db ∨ e.fetched_at = now := by
  constructor
  · by_cases hs : d.status = some 304 <;>
      by_cases ht : optTruthy d.feedTitle = true <;>
        simp [fetch_one_feed, hs, ht]
  · intro e he
    by_cases hs : d.status = some 304
    · left
      by_cases ht : optTruthy d.feedTitle = true <;>
        simpa [fetch_one_feed, hs, ht] using he
    · obtain ⟨cdb, _, _, _⟩ := fetch_one_feed_components now f d db nid hs
      rw [cdb] at he
      exact insertEntries_fetched f.id now d.entries db nid e he

def sampleFeedC10 : FeedRow :=
  { id := 4, url := "http://f10", title := none, category := "default", added_at := "t0" }

def sampleParsedC10 : ParsedFeed :=
  { status := some 200, entries := [{ id := some "only-item" }] }

/-- Witness for C10: the one inserted row of a concrete pass carries the
pass-wide timestamp, which is also the recorded `last_checked_at`. -/
theorem fetched_at_uniform_witness :
    (fetch_one_feed "t9" sampleFeedC10 sampleParsedC10 [] 1).feed.last_checked_at = some "t9" ∧
    (mkEntryRow 1 4 "t9" { id := some "only-item" }).fetched_at = "t9" := by
  refine ⟨(fetched_at_uniform "t9" sampleFeedC10 sampleParsedC10 [] 1).1, ?_⟩
  have h := (fetched_at_uniform "t9" sampleFeedC10 sampleParsedC10 [] 1).2
      (mkEntryRow 1 4 "t9" { id := some "only-item" }) (by decide)
  exact h.resolve_left (by decide)

/-! ### Claim C6: filter-match semantics -/

def exEntryC6 : EntryRow :=
  { id := 1, feed_id := 1, guid := "g1", title := some "AI startup raises seed",
    link := none, author := none, published_at := some "2025-01-01T00:00:00+00:00",
    summary := none, content := none, fetched_at := "2025-01-01T00:00:00+00:00" }

def exFilterC6 : FeedFilter :=
  { id := 1, feed_id := 1, name := "AI + startup", include_keywords := ["ai", "startup"],
    exclude_keywords := ["seed"], match_fields := ["title"],
    is_case_sensitive := false, is_enabled := true }

/-- C6: an entry matches a filter iff every include keyword occurs as a
substring of the concatenated scoped field values and no exclude
keyword occurs there (haystack and keywords lower-cased when the filter
is case-insensitive); the claim's concrete example — include
`{ai, startup}`, exclude `{seed}`, scope `{title}`, case-insensitive,
title "AI startup raises seed" — does not match; and a feed with zero
active filters is returned unfiltered. -/
theorem filter_match_semantics (e : EntryRow) (flt : FeedFilter) :
    (let haystack := String.intercalate "\n" (flt.match_fields.filterMap (fun fld =>
        match entry_field e fld with
        | some v => if v = "" then none else some v
        | none => none))
     let hay := if flt.is_case_sensitive then haystack else pyLower haystack
     let inc := if flt.is_case_sensitive then flt.include_keywords
       else flt.include_keywords.map pyLower
     let exc := if flt.is_case_sensitive then flt.exclude_keywords
       else flt.exclude_keywords.map pyLower
     entry_matches_filter e flt = true ↔
       (∀ k ∈ inc, strContainsSub hay k = true) ∧ ∀ k ∈ exc, strContainsSub hay k = false) ∧
    entry_matches_filter exEntryC6 exFilterC6 = false ∧
    ∀ (db : List EntryRow) (filters : List FeedFilter) (feedId : Nat) (limit : Int)
      (up : Bool),
      list_feed_filters filters (some feedId) true = [] →
      get_filtered_entries_for_feed db filters feedId limit up =
        get_last_entries_for_feed db feedId limit up := by
  refine ⟨?_, by decide, ?_⟩
  · simp only [entry_matches_filter, Bool.and_eq_true, List.all_eq_true,
      Bool.not_eq_true', List.any_eq_false, Bool.not_eq_true]
  · intro db filters feedId limit up hflt
    simp [get_filtered_entries_for_feed, hflt]

def sampleDbC6 : List EntryRow :=
  [exEntryC6,
   { id := 2, feed_id := 1, guid := "g2", title := some "Sports daily",
     link := none, author := none, published_at := some "2025-01-02T00:00:00+00:00",
     summary := none, content := none, fetched_at := "2025-01-02T00:00:00+00:00" }]

def sampleDisabledFilterC6 : FeedFilter :=
  { id := 1, feed_id := 1, name := "AI + startup", include_keywords := ["ai", "startup"],
    exclude_keywords := ["seed"], match_fields := ["title"],
    is_case_sensitive := false, is_enabled := false }

/-- Witness for C6: with the only stored filter disabled, the feed's
recent entries come back unfiltered. -/
theorem filter_match_semantics_witness :
    get_filtered_entries_for_feed sampleDbC6 [sampleDisabledFilterC6] 1 10 true =
      get_last_entries_for_feed sampleDbC6 1 10 true :=
  (filter_match_semantics exEntryC6 exFilterC6).2.2 sampleDbC6 [sampleDisabledFilterC6]
    1 10 true (by decide)

/-! ### Claim C7: degraded-mode search scans title and summary only -/

theorem filter_over_map {α : Type} (g : α → α) (p : α → Bool)
    (hg : ∀ a, p (g a) = p a) (l : List α) :
    (l.map g).filter p = (l.filter p).map g := by
  induction l with
  | nil => rfl
  | cons x xs ih =>
    simp only [List.map_cons, List.filter_cons, hg]
    by_cases h : p x = true <;> simp [h, ih]

/-- C7: every result of the `LIKE` fallback `_search_like` is a stored
entry whose title or summary matches the pattern `%q%` — the content
column never influences selection (rewriting every entry's content
commutes with the query) — results are ordered by
`COALESCE(published_at, fetched_at)` descending, and a supplied category
restricts results to feeds of that category exactly as on the indexed
path. -/
theorem search_like_degraded (db : List EntryRow) (feeds : List FeedRow) (q : String)
    (lim : Int) (cat : Option String) :
    (∀ e ∈ search_like db feeds q lim cat,
      e ∈ db ∧
      (likeField ("%" ++ q ++ "%") e.title = true ∨
       likeField ("%" ++ q ++ "%") e.summary = true) ∧
      ∀ c, cat = some c → ∃ d ∈ feeds, d.id = e.feed_id ∧ d.category = c) ∧
    (search_like db feeds q lim cat).Pairwise
      (fun a b => strLe (coalesceTs b) (coalesceTs a) = true) ∧
    (∀ fc : EntryRow → Option String,
      search_like (db.map (fun e => { e with content := fc e })) feeds q lim cat =
        (search_like db feeds q lim cat).map (fun e => { e with content := fc e })) := by
  refine ⟨?_, ?_, ?_⟩
  · intro e he
    have h1 := List.mem_of_mem_take he
    rw [mem_sortByKeyDesc, List.mem_filter] at h1
    obtain ⟨hmem, hpred⟩ := h1
    simp only [Bool.and_eq_true] at hpred
    obtain ⟨hlike, hcat⟩ := hpred
    refine ⟨hmem, ?_, ?_⟩
    · unfold searchLikePred at hlike
      simpa only [Bool.or_eq_true] using hlike
    · intro c hcz
      subst hcz
      unfold feedCatOk at hcat
      rcases List.any_eq_true.mp hcat with ⟨d0, hd0, hp⟩
      simp only [Bool.and_eq_true, beq_iff_eq] at hp
      exact ⟨d0, hd0, hp.1, hp.2⟩
  · exact (pairwise_sortByKeyDesc _ _).sublist (List.take_sublist _ _)
  · intro fc
    unfold search_like
    rw [filter_over_map (fun e => { e with content := fc e })
        (fun e => searchLikePred q e && feedCatOk feeds cat e) (fun a => rfl) db,
      sortByKeyDesc_map coalesceTs (fun e => { e with content := fc e }) (fun a => rfl),
      List.map_take]

def sampleFeedsC7 : List FeedRow :=
  [{ id := 1, url := "http://f7", title := none, category := "news", added_at := "t0" }]

def sampleEntryC7 : EntryRow :=
  { id := 1, feed_id := 1, guid := "g1", title := some "Python asyncio tips",
    link := none, author := none, published_at := some "2026-01-01T00:00:00+00:00",
    summary := none, content := some "only the content mentions kubernetes",
    fetched_at := "2026-01-02T00:00:00+00:00" }

def sampleDbC7 : List EntryRow := [sampleEntryC7]

/-- Witness for C7: a concrete query that lands in the fallback result
does so through its title. -/
theorem search_like_degraded_witness :
    sampleEntryC7 ∈ sampleDbC7 ∧
    (likeField ("%" ++ "python" ++ "%") sampleEntryC7.title = true ∨
     likeField ("%" ++ "python" ++ "%") sampleEntryC7.summary = true) :=
  have h := (search_like_degraded sampleDbC7 sampleFeedsC7 "python" 10 (some "news")).1
      sampleEntryC7 (by decide)
  ⟨h.1, h.2.1⟩

/-! ### Claim C8: blank queries and the limit clamp -/

/-- C8: a query that is blank after stripping makes `search` return the
empty sequence without consulting either path (the result is `[]` for
*every* indexed-path function and every store); a non-blank query is
dispatched with the limit clamped into `[1, 500]` on whichever path is
taken. -/
theorem search_blank_and_clamp (ftsPath : String → Int → Option String → List EntryRow)
    (db : List EntryRow) (feeds : List FeedRow) (fts : Bool) (query : String)
    (limit : Int) (cat : Option String) :
    (pyStrip query = "" → search ftsPath db feeds fts query limit cat = []) ∧
    (pyStrip query ≠ "" →
      search ftsPath db feeds fts query limit cat =
        (if fts then ftsPath (pyStrip query) (clampLimit limit) cat
         else search_like db feeds (pyStrip query) (clampLimit limit) cat) ∧
      1 ≤ clampLimit limit ∧ clampLimit limit ≤ 500) := by
  constructor
  · intro h
    simp [search, h]
  · intro h
    refine ⟨by simp [search, h], le_max_left 1 (min limit 500), ?_⟩
    exact max_le (by omega) (min_le_right limit 500)

/-- Witness for C8: a whitespace-only query returns no results on the
fallback path regardless of the store, and an oversized limit is
clamped to the `[1, 500]` range. -/
theorem search_blank_and_clamp_witness :
    search (fun _ _ _ => []) sampleDbC7 sampleFeedsC7 false "   " 50 none = [] ∧
    1 ≤ clampLimit 9999 ∧ clampLimit 9999 ≤ 500 :=
  ⟨(search_blank_and_clamp (fun _ _ _ => []) sampleDbC7 sampleFeedsC7 false "   " 50 none).1
      (by decide),
   ((search_blank_and_clamp (fun _ _ _ => []) sampleDbC7 sampleFeedsC7 false "kubernetes"
      9999 none).2 (by decide)).2.1,
   ((search_blank_and_clamp (fun _ _ _ => []) sampleDbC7 sampleFeedsC7 false "kubernetes"
      9999 none).2 (by decide)).2.2⟩

end PyRSS
